import Mathlib

/-!
Verification of the realtime room synchronization subsystem and the
completion proxy of the collaborative editor backend (Express + Socket.IO
server, `backend/src`).  The server keeps a `Map` from room id to a
document snapshot, a per-connection `activeRoom` variable, and Socket.IO
room membership (which is additive: `socket.join` adds a room and nothing
ever removes one short of disconnecting).  Events are processed one at a
time; each handler may mutate the document map and emit messages.

The embedding below is a direct shallow translation of the handlers in
`backend/src/index.ts` (reproduced in the repository README): `join_room`,
`code_change`, `cursor_update`, `disconnect`, plus the `/api/completions`
request pipeline.  `Date.now()` is modelled by an explicit `now : Nat`
argument supplied with each event.
-/

namespace RealtimeEditor

/-- `DocumentState` from the source: `{ content: string; updatedAt: number }`. -/
structure DocumentState where
  content : String
  updatedAt : Nat
deriving Repr, DecidableEq

/-- One live Socket.IO connection: its id, the handler-scoped `activeRoom`
variable (`string | null`), and the set of Socket.IO rooms the socket has
joined (`socket.join` is additive; the source never calls `socket.leave`). -/
structure SocketState where
  sid : Nat
  activeRoom : Option String
  rooms : List String
deriving Repr, DecidableEq

/-- Whole-server state: `documents : Map<string, DocumentState>` modelled as
an association list, plus the set of live sockets. -/
structure ServerState where
  documents : List (String × DocumentState)
  sockets : List SocketState
deriving Repr, DecidableEq

/-- `Map.get`: first binding for the key, if any. -/
def mapFind (m : List (String × DocumentState)) (k : String) : Option DocumentState :=
  (m.find? (fun p => p.1 == k)).map Prod.snd

/-- `Map.set`: replace the binding if present, else append it. -/
def mapSet : List (String × DocumentState) → String → DocumentState → List (String × DocumentState)
  | [], k, v => [(k, v)]
  | p :: rest, k, v => if p.1 == k then (k, v) :: rest else p :: mapSet rest k v

/-- The `content` field of a `code_change` payload: the handler checks
`typeof content !== 'string'`, so we distinguish string payloads from all
non-string values. -/
inductive JsContent where
  | str (s : String)
  | nonString
deriving Repr, DecidableEq

/-- Cursor position payload `{ line, ch }`. -/
structure Cursor where
  line : Nat
  ch : Nat
deriving Repr, DecidableEq

/-- The events the server reacts to.  A missing/`undefined` room id and the
empty-string room id are both falsy in `if (!roomId) return`, so both are
modelled by the empty string. -/
inductive Event where
  | connect (sid : Nat)
  | join_room (sid : Nat) (roomId : String)
  | code_change (sid : Nat) (roomId : String) (content : JsContent)
  | cursor_update (sid : Nat) (roomId : String) (cursor : Cursor)
  | disconnect (sid : Nat)
deriving Repr, DecidableEq

/-- Messages the server emits to individual sockets. -/
inductive Msg where
  | initial_state (snap : DocumentState)
  | peer_joined (peerId : Nat)
  | code_change (content : String)
  | cursor_update (peerId : Nat) (cursor : Cursor)
  | peer_left (peerId : Nat)
deriving Repr, DecidableEq

/-- `socket.to(roomId).emit(...)`: deliver `m` to every socket currently in
Socket.IO room `roomId` except the sender. -/
def broadcastTo (st : ServerState) (sender : Nat) (roomId : String) (m : Msg) :
    List (Nat × Msg) :=
  (st.sockets.filter (fun s => s.rooms.contains roomId && s.sid != sender)).map
    (fun s => (s.sid, m))

/-- `socket.find`: the socket with the given id. -/
def findSocket (st : ServerState) (sid : Nat) : Option SocketState :=
  st.sockets.find? (fun s => s.sid == sid)

/-- The update a `join_room` performs on the joining socket: overwrite
`activeRoom` and add the room to the socket's Socket.IO membership
(`socket.join` is a no-op when already a member). -/
def joinUpd (sid : Nat) (roomId : String) (t : SocketState) : SocketState :=
  if t.sid == sid then
    { t with
        activeRoom := some roomId,
        rooms := if t.rooms.contains roomId then t.rooms else t.rooms ++ [roomId] }
  else t

/-- One handler execution, directly translated from the source.  Returns the
new server state and the list of `(receiver socket id, message)` emissions,
in emission order. -/
def step (st : ServerState) (ev : Event) (now : Nat) : ServerState × List (Nat × Msg) :=
  match ev with
  | .connect sid =>
      ({ st with sockets := st.sockets ++ [⟨sid, none, []⟩] }, [])
  | .join_room sid roomId =>
      if roomId = "" then (st, [])
      else
        let docs :=
          if (mapFind st.documents roomId).isSome then st.documents
          else mapSet st.documents roomId ⟨"", now⟩
        let st' : ServerState := ⟨docs, st.sockets.map (joinUpd sid roomId)⟩
        let snap := (mapFind docs roomId).getD ⟨"", now⟩
        (st', (sid, Msg.initial_state snap) :: broadcastTo st' sid roomId (Msg.peer_joined sid))
  | .code_change sid roomId content =>
      if roomId = "" then (st, [])
      else
        match content with
        | .nonString => (st, [])
        | .str c =>
            let st' : ServerState := ⟨mapSet st.documents roomId ⟨c, now⟩, st.sockets⟩
            (st', broadcastTo st' sid roomId (Msg.code_change c))
  | .cursor_update sid roomId cursor =>
      if roomId = "" then (st, [])
      else (st, broadcastTo st sid roomId (Msg.cursor_update sid cursor))
  | .disconnect sid =>
      let out :=
        match findSocket st sid with
        | some s =>
            match s.activeRoom with
            | some r => broadcastTo st sid r (Msg.peer_left sid)
            | none => []
        | none => []
      ({ st with sockets := st.sockets.filter (fun s => s.sid != sid) }, out)

/-- Run a list of timestamped events from a state, discarding emissions. -/
def run (st : ServerState) (tr : List (Event × Nat)) : ServerState :=
  match tr with
  | [] => st
  | p :: rest => run (step st p.1 p.2).1 rest

/-- Server start: no rooms, no sockets. -/
def initState : ServerState := ⟨[], []⟩

/-- A room entry exists in the store. -/
def roomExists (st : ServerState) (r : String) : Bool :=
  (mapFind st.documents r).isSome

/-- The trace contains a join event naming room `r` that passes validation. -/
def containsJoinFor (tr : List (Event × Nat)) (r : String) : Bool :=
  tr.any (fun p =>
    match p.1 with
    | .join_room _ rid => rid == r && rid != ""
    | _ => false)

/-- An event that causes a store entry for `r` to exist afterwards: a
validated join, or an accepted mutation (non-empty room id, string content). -/
def createsRoom (ev : Event) (r : String) : Bool :=
  match ev with
  | .join_room _ rid => rid == r && rid != ""
  | .code_change _ rid c =>
      rid == r && rid != "" &&
        (match c with
         | .str _ => true
         | .nonString => false)
  | _ => false

/-- The trace contains an event that creates room `r`. -/
def containsCreatorFor (tr : List (Event × Nat)) (r : String) : Bool :=
  tr.any (fun p => createsRoom p.1 r)

theorem beq_false_of_ne {α : Type} [BEq α] [LawfulBEq α] {a b : α} (h : a ≠ b) :
    (a == b) = false := by
  cases hab : a == b
  · rfl
  · exact absurd (eq_of_beq hab) h

theorem mapFind_mapSet_self (m : List (String × DocumentState)) (k : String)
    (v : DocumentState) : mapFind (mapSet m k v) k = some v := by
  induction m with
  | nil => simp [mapSet, mapFind]
  | cons p rest ih =>
      cases hb : (p.1 == k) with
      | true => simp [mapSet, hb, mapFind]
      | false => simpa [mapSet, hb, mapFind] using ih

theorem mapFind_mapSet_ne (m : List (String × DocumentState)) (k k' : String)
    (v : DocumentState) (h : k' ≠ k) : mapFind (mapSet m k v) k' = mapFind m k' := by
  have hkk : (k == k') = false := beq_false_of_ne (Ne.symm h)
  induction m with
  | nil => simp [mapSet, mapFind, List.find?, hkk]
  | cons p rest ih =>
      cases hb : (p.1 == k) with
      | true =>
          have hpk : p.1 = k := by simpa using hb
          simp [mapSet, hb, mapFind, List.find?, hpk, hkk]
      | false =>
          cases hpk' : (p.1 == k') with
          | true => simp [mapSet, hb, mapFind, List.find?, hpk']
          | false => simpa [mapSet, hb, mapFind, List.find?, hpk'] using ih

/-- Exactly the validated joins and accepted mutations make a room's store
entry exist after the step; every other event leaves existence unchanged. -/
theorem step_roomExists (st : ServerState) (ev : Event) (now : Nat) (r : String) :
    roomExists (step st ev now).1 r = (roomExists st r || createsRoom ev r) := by
  cases ev with
  | connect sid => simp [step, roomExists, createsRoom]
  | join_room sid rid =>
      by_cases hrid : rid = ""
      · simp [step, hrid, roomExists, createsRoom]
      · simp only [step, if_neg hrid]
        by_cases hr : r = rid
        · subst hr
          by_cases hs : (mapFind st.documents r).isSome
          · simp [roomExists, hs, createsRoom, hrid]
          · simp [roomExists, hs, createsRoom, hrid, mapFind_mapSet_self]
        · have hne : (rid == r) = false := beq_false_of_ne (Ne.symm hr)
          by_cases hs : (mapFind st.documents rid).isSome
          · simp [roomExists, hs, createsRoom, hne]
          · simp [roomExists, hs, createsRoom, hne, mapFind_mapSet_ne _ _ _ _ hr]
  | code_change sid rid c =>
      by_cases hrid : rid = ""
      · simp [step, hrid, roomExists, createsRoom]
      · cases c with
        | nonString => simp [step, hrid, roomExists, createsRoom]
        | str s =>
            by_cases hr : r = rid
            · subst hr
              simp [step, hrid, roomExists, createsRoom, mapFind_mapSet_self]
            · have hne : (rid == r) = false := beq_false_of_ne (Ne.symm hr)
              simp [step, hrid, roomExists, createsRoom, hne,
                mapFind_mapSet_ne _ _ _ _ hr]
  | cursor_update sid rid cur =>
      by_cases hrid : rid = "" <;> simp [step, hrid, roomExists, createsRoom]
  | disconnect sid => simp [step, roomExists, createsRoom]

theorem run_roomExists (tr : List (Event × Nat)) :
    ∀ st r, roomExists (run st tr) r = (roomExists st r || containsCreatorFor tr r) := by
  induction tr with
  | nil => simp [run, containsCreatorFor]
  | cons p rest ih =>
      intro st r
      have : containsCreatorFor (p :: rest) r
          = (createsRoom p.1 r || containsCreatorFor rest r) := by
        simp [containsCreatorFor]
      rw [run, ih, step_roomExists, this, Bool.or_assoc]

/-- C1 (counterexample): starting from server start, a single accepted
`code_change` for room `"r"` — with no join ever processed — creates the
store entry for `"r"`, so a room entry can exist although no join naming it
was processed, refuting the claimed iff. -/
theorem C1_counterexample :
    roomExists (run initState [(Event.connect 1, 0),
        (Event.code_change 1 "r" (JsContent.str "x"), 1)]) "r" = true ∧
      containsJoinFor [(Event.connect 1, 0),
        (Event.code_change 1 "r" (JsContent.str "x"), 1)] "r" = false := by
  decide

/-- C1 (amended): a room entry exists in the store iff the processed trace
contains a validated join (non-empty room id) or an accepted mutation
(non-empty room id, string content) naming that room; no other event ever
creates a room entry. -/
theorem C1_amended (tr : List (Event × Nat)) (r : String) :
    roomExists (run initState tr) r = containsCreatorFor tr r := by
  have h := run_roomExists tr initState r
  simpa [initState, roomExists, mapFind] using h

/-- Receivers of a `socket.to(roomId).emit`: exactly the sockets currently in
the Socket.IO room, except the sender, each receiving exactly the payload. -/
theorem broadcastTo_mem (st : ServerState) (sender : Nat) (roomId : String) (m : Msg)
    (x : Nat) (mm : Msg) :
    (x, mm) ∈ broadcastTo st sender roomId m ↔
      (mm = m ∧ x ≠ sender ∧
        ∃ s, s ∈ st.sockets ∧ s.sid = x ∧ s.rooms.contains roomId = true) := by
  simp only [broadcastTo, List.mem_map, List.mem_filter, Bool.and_eq_true, bne_iff_ne,
    ne_eq, Prod.mk.injEq]
  constructor
  · rintro ⟨s, ⟨hsl, hcont, hne⟩, hx, hm⟩
    exact ⟨hm.symm, hx ▸ hne, s, hsl, hx, hcont⟩
  · rintro ⟨rfl, hne, s, hsl, rfl, hcont⟩
    exact ⟨s, ⟨hsl, hcont, hne⟩, rfl, rfl⟩

/-- Events that can change room `R`'s stored snapshot once it exists: accepted
mutations naming `R`. -/
def isMutationOf (ev : Event) (R : String) : Bool :=
  match ev with
  | .code_change _ rid (.str _) => rid == R
  | _ => false

/-- Any event that is not an accepted mutation for `R` leaves `R`'s existing
store entry untouched. -/
theorem step_preserves_doc (st : ServerState) (ev : Event) (now : Nat) (R : String)
    (d : DocumentState) (hd : mapFind st.documents R = some d)
    (hm : isMutationOf ev R = false) :
    mapFind (step st ev now).1.documents R = some d := by
  cases ev with
  | connect sid => simpa [step] using hd
  | join_room sid rid =>
      by_cases hrid : rid = ""
      · simpa [step, hrid] using hd
      · simp only [step, if_neg hrid]
        by_cases hrR : rid = R
        · subst hrR
          simp [hd]
        · by_cases hs : (mapFind st.documents rid).isSome
          · simpa [hs] using hd
          · simpa [hs, mapFind_mapSet_ne _ _ _ _ (Ne.symm hrR)] using hd
  | code_change sid rid c =>
      cases c with
      | nonString => by_cases hrid : rid = "" <;> simpa [step, hrid] using hd
      | str s =>
          have hrR : rid ≠ R := by
            intro h
            simp [isMutationOf, h] at hm
          by_cases hrid : rid = ""
          · simpa [step, hrid] using hd
          · simp only [step, if_neg hrid]
            simpa [mapFind_mapSet_ne _ _ _ _ (Ne.symm hrR)] using hd
  | cursor_update sid rid cur =>
      by_cases hrid : rid = "" <;> simpa [step, hrid] using hd
  | disconnect sid => simpa [step] using hd

/-- A join to an existing room returns that room's current snapshot to the
joiner (first emission) and leaves the stored snapshot unchanged. -/
theorem step_join_existing (st : ServerState) (sid : Nat) (R : String) (now : Nat)
    (d : DocumentState) (hR : R ≠ "") (hd : mapFind st.documents R = some d) :
    (step st (.join_room sid R) now).2.head? = some (sid, Msg.initial_state d) ∧
      mapFind (step st (.join_room sid R) now).1.documents R = some d := by
  simp [step, hR, hd]

/-- C4: a `code_change` whose content is not a string is a complete no-op —
state (documents and sockets) unchanged, no emission to anyone, no error to
the sender — whatever the room id. -/
theorem C4_theorem (st : ServerState) (sid : Nat) (R : String) (now : Nat) :
    step st (Event.code_change sid R JsContent.nonString) now = (st, []) := by
  by_cases hR : R = "" <;> simp [step, hR]

/-- C6: a join with an empty/absent room id is a silent no-op: no room
created, no snapshot returned, no broadcast, no change to the connection's
recorded room association. -/
theorem C6_theorem (st : ServerState) (sid : Nat) (now : Nat) :
    step st (Event.join_room sid "") now = (st, []) := by
  simp [step]

/-- C7: a `cursor_update` with a non-empty room id is delivered exactly to
the room's other members — every current member other than the sender, no
one else, and never the sender itself — carrying the sender's id and cursor. -/
theorem C7_theorem (st : ServerState) (sender : Nat) (R : String) (cur : Cursor)
    (now : Nat) (hR : R ≠ "") (x : Nat) (m : Msg) :
    (x, m) ∈ (step st (Event.cursor_update sender R cur) now).2 ↔
      (m = Msg.cursor_update sender cur ∧ x ≠ sender ∧
        ∃ s, s ∈ st.sockets ∧ s.sid = x ∧ s.rooms.contains R = true) := by
  simp only [step, if_neg hR]
  exact broadcastTo_mem st sender R (Msg.cursor_update sender cur) x m

theorem C7_witness :
    ((2, Msg.cursor_update 1 ⟨3, 4⟩) ∈
      (step ⟨[], [⟨1, none, ["demo"]⟩, ⟨2, none, ["demo"]⟩]⟩
        (Event.cursor_update 1 "demo" ⟨3, 4⟩) 9).2) ∧
    ¬ ((1, Msg.cursor_update 1 ⟨3, 4⟩) ∈
      (step ⟨[], [⟨1, none, ["demo"]⟩, ⟨2, none, ["demo"]⟩]⟩
        (Event.cursor_update 1 "demo" ⟨3, 4⟩) 9).2) := by
  have h := C7_theorem ⟨[], [⟨1, none, ["demo"]⟩, ⟨2, none, ["demo"]⟩]⟩ 1 "demo"
    ⟨3, 4⟩ 9 (by decide)
  constructor
  · exact (h 2 (Msg.cursor_update 1 ⟨3, 4⟩)).mpr
      ⟨rfl, by decide, ⟨⟨2, none, ["demo"]⟩, by decide, rfl, by decide⟩⟩
  · intro hmem
    exact absurd rfl ((h 1 (Msg.cursor_update 1 ⟨3, 4⟩)).mp hmem).2.1

/-- C3: an accepted mutation with content `C` for room `R` (i) is broadcast
with content exactly `C` to every current member of `R` other than the
sender and to no one else; (ii) stores snapshot `⟨C, now⟩` for `R`; (iii)
any subsequent join to a state holding that snapshot returns it to the
joiner; (iv) any event other than an accepted mutation for `R` preserves the
snapshot — so joins keep returning `C` until a later accepted mutation. -/
theorem C3_theorem (st : ServerState) (sender : Nat) (R C : String) (now : Nat)
    (hR : R ≠ "") :
    (∀ x m, (x, m) ∈ (step st (Event.code_change sender R (JsContent.str C)) now).2 ↔
        (m = Msg.code_change C ∧ x ≠ sender ∧
          ∃ s, s ∈ st.sockets ∧ s.sid = x ∧ s.rooms.contains R = true)) ∧
    mapFind (step st (Event.code_change sender R (JsContent.str C)) now).1.documents R =
      some ⟨C, now⟩ ∧
    (∀ st2 sid2 now2, mapFind st2.documents R = some ⟨C, now⟩ →
        (step st2 (Event.join_room sid2 R) now2).2.head? =
          some (sid2, Msg.initial_state ⟨C, now⟩)) ∧
    (∀ st2 ev2 now2, mapFind st2.documents R = some ⟨C, now⟩ →
        isMutationOf ev2 R = false →
        mapFind (step st2 ev2 now2).1.documents R = some ⟨C, now⟩) := by
  refine ⟨?_, ?_, ?_, ?_⟩
  · intro x m
    simp only [step, if_neg hR]
    exact broadcastTo_mem ⟨mapSet st.documents R ⟨C, now⟩, st.sockets⟩ sender R
      (Msg.code_change C) x m
  · simp [step, hR, mapFind_mapSet_self]
  · intro st2 sid2 now2 hd2
    exact (step_join_existing st2 sid2 R now2 ⟨C, now⟩ hR hd2).1
  · intro st2 ev2 now2 hd2 hm2
    exact step_preserves_doc st2 ev2 now2 R ⟨C, now⟩ hd2 hm2

theorem C3_witness :
    ((2, Msg.code_change "x=1") ∈
      (step ⟨[], [⟨1, none, ["demo"]⟩, ⟨2, none, ["demo"]⟩, ⟨3, none, []⟩]⟩
        (Event.code_change 1 "demo" (JsContent.str "x=1")) 5).2) ∧
    mapFind (step ⟨[], [⟨1, none, ["demo"]⟩, ⟨2, none, ["demo"]⟩, ⟨3, none, []⟩]⟩
        (Event.code_change 1 "demo" (JsContent.str "x=1")) 5).1.documents "demo" =
      some ⟨"x=1", 5⟩ := by
  have h := C3_theorem ⟨[], [⟨1, none, ["demo"]⟩, ⟨2, none, ["demo"]⟩, ⟨3, none, []⟩]⟩
    1 "demo" "x=1" 5 (by decide)
  exact ⟨(h.1 2 (Msg.code_change "x=1")).mpr
    ⟨rfl, by decide, ⟨⟨2, none, ["demo"]⟩, by decide, rfl, by decide⟩⟩, h.2.1⟩

/-- C9: an accepted mutation is applied and broadcast even when the sender
has never joined the room (the server performs no membership check): the
snapshot is stored and every member of `R` other than the sender receives
the content, although the sender is not in `R`'s membership. -/
theorem C9_theorem (st : ServerState) (sender : Nat) (s : SocketState) (R C : String)
    (now : Nat) (hR : R ≠ "") (hs : findSocket st sender = some s)
    (hnm : s.rooms.contains R = false) :
    mapFind (step st (Event.code_change sender R (JsContent.str C)) now).1.documents R =
      some ⟨C, now⟩ ∧
    (∀ x, x ≠ sender →
        (∃ s2, s2 ∈ st.sockets ∧ s2.sid = x ∧ s2.rooms.contains R = true) →
        (x, Msg.code_change C) ∈
          (step st (Event.code_change sender R (JsContent.str C)) now).2) := by
  constructor
  · simp [step, hR, mapFind_mapSet_self]
  · intro x hx hex
    simp only [step, if_neg hR]
    exact (broadcastTo_mem ⟨mapSet st.documents R ⟨C, now⟩, st.sockets⟩ sender R
      (Msg.code_change C) x (Msg.code_change C)).mpr ⟨rfl, hx, hex⟩

theorem C9_witness :
    mapFind (step ⟨[], [⟨2, none, ["demo"]⟩, ⟨9, none, []⟩]⟩
        (Event.code_change 9 "demo" (JsContent.str "y")) 7).1.documents "demo" =
      some ⟨"y", 7⟩ ∧
    (2, Msg.code_change "y") ∈
      (step ⟨[], [⟨2, none, ["demo"]⟩, ⟨9, none, []⟩]⟩
        (Event.code_change 9 "demo" (JsContent.str "y")) 7).2 := by
  have h := C9_theorem ⟨[], [⟨2, none, ["demo"]⟩, ⟨9, none, []⟩]⟩ 9 ⟨9, none, []⟩
    "demo" "y" 7 (by decide) (by decide) (by decide)
  exact ⟨h.1, h.2 2 (by decide) ⟨⟨2, none, ["demo"]⟩, by decide, rfl, by decide⟩⟩

theorem joinUpd_sid (sid : Nat) (roomId : String) (t : SocketState) :
    (joinUpd sid roomId t).sid = t.sid := by
  unfold joinUpd
  cases hb : (t.sid == sid) <;> simp [hb]

theorem find?_map_sid_pres (l : List SocketState) (g : SocketState → SocketState)
    (hg : ∀ t, (g t).sid = t.sid) (sid : Nat) :
    (l.map g).find? (fun t => t.sid == sid) =
      (l.find? (fun t => t.sid == sid)).map g := by
  induction l with
  | nil => simp
  | cons a l ih =>
      cases hb : (a.sid == sid) with
      | true => simp [List.find?, hg a, hb]
      | false => simpa [List.find?, hg a, hb] using ih

theorem contains_append_left (l l' : List String) (a : String)
    (h : l.contains a = true) : (l ++ l').contains a = true := by
  have : a ∈ l := by simpa using h
  simpa using List.mem_append_left l' this

/-- After a validated join, the socket list is the original one with the
joiner's `activeRoom` overwritten and the room added to its membership. -/
theorem step_join_sockets (st : ServerState) (sid : Nat) (R : String) (now : Nat)
    (hR : R ≠ "") :
    (step st (Event.join_room sid R) now).1.sockets = st.sockets.map (joinUpd sid R) := by
  simp [step, hR]

theorem joinUpd_self (sid : Nat) (R : String) (s : SocketState) (hsid : s.sid = sid) :
    joinUpd sid R s =
      { s with activeRoom := some R,
               rooms := if s.rooms.contains R then s.rooms else s.rooms ++ [R] } := by
  simp [joinUpd, hsid]

theorem joinUpd_rooms_contains (sid : Nat) (R R1 : String) (s : SocketState)
    (h : s.rooms.contains R1 = true) : (joinUpd sid R s).rooms.contains R1 = true := by
  have hm : R1 ∈ s.rooms := by simpa using h
  unfold joinUpd
  cases hb : (s.sid == sid) with
  | false => simpa [hb] using h
  | true =>
      by_cases hc : R ∈ s.rooms
      · simpa [hb, hc] using hm
      · simp [hb, hc]
        exact Or.inl hm

/-- C2 (counterexample): connection 1 joins room `"r1"`, then joins `"r2"`
without disconnecting.  Its recorded membership is now `"r2"`, yet a
subsequent `code_change` broadcast addressed to `"r1"` is still delivered to
connection 1 — `socket.join` is additive and the handler never leaves the
old room — refuting the claim that the connection no longer receives
broadcasts addressed to the previously joined room. -/
theorem C2_counterexample :
    findSocket (run initState [(Event.connect 1, 0), (Event.connect 2, 0),
        (Event.join_room 1 "r1", 1), (Event.join_room 1 "r2", 2)]) 1 =
      some ⟨1, some "r2", ["r1", "r2"]⟩ ∧
    (step (run initState [(Event.connect 1, 0), (Event.connect 2, 0),
        (Event.join_room 1 "r1", 1), (Event.join_room 1 "r2", 2)])
      (Event.code_change 2 "r1" (JsContent.str "x")) 3).2 =
      [(1, Msg.code_change "x")] := by
  decide

/-- C2 (amended): a second join from the same connection to a different
room, without an intervening disconnect, overwrites the connection's
recorded membership (`activeRoom`, which drives only the disconnect
notification) and the old room receives no notification of the change; but
the connection remains a member of the previously joined Socket.IO room and
continues to receive broadcasts addressed to it. -/
theorem C2_amended (st : ServerState) (sid : Nat) (s : SocketState) (R1 R2 : String)
    (now : Nat) (hfind : findSocket st sid = some s) (hR1 : R1 ≠ "") (hR2 : R2 ≠ "")
    (hmem : s.rooms.contains R1 = true) :
    (∃ s', findSocket (step st (Event.join_room sid R2) now).1 sid = some s' ∧
        s'.activeRoom = some R2 ∧ s'.rooms.contains R1 = true) ∧
    (∀ x m, (x, m) ∈ (step st (Event.join_room sid R2) now).2 →
        x = sid ∨ (m = Msg.peer_joined sid ∧ x ≠ sid ∧
          ∃ s2, s2 ∈ (step st (Event.join_room sid R2) now).1.sockets ∧
            s2.sid = x ∧ s2.rooms.contains R2 = true)) ∧
    (∀ now2 sender2 C, sender2 ≠ sid →
        (sid, Msg.code_change C) ∈
          (step (step st (Event.join_room sid R2) now).1
            (Event.code_change sender2 R1 (JsContent.str C)) now2).2) := by
  have hsid : s.sid = sid := by
    have := List.find?_some (show st.sockets.find? (fun t => t.sid == sid) = some s
      from hfind)
    simpa using this
  have hfind' : findSocket (step st (Event.join_room sid R2) now).1 sid =
      some (joinUpd sid R2 s) := by
    unfold findSocket
    rw [step_join_sockets st sid R2 now hR2,
      find?_map_sid_pres st.sockets (joinUpd sid R2) (joinUpd_sid sid R2) sid]
    rw [show st.sockets.find? (fun t => t.sid == sid) = some s from hfind]
    rfl
  have hactive : (joinUpd sid R2 s).activeRoom = some R2 := by
    rw [joinUpd_self sid R2 s hsid]
  have hroom1 : (joinUpd sid R2 s).rooms.contains R1 = true :=
    joinUpd_rooms_contains sid R2 R1 s hmem
  refine ⟨⟨joinUpd sid R2 s, hfind', hactive, hroom1⟩, ?_, ?_⟩
  · intro x m hxm
    simp only [step, if_neg hR2] at hxm
    rcases List.mem_cons.mp hxm with h | h
    · left
      exact congrArg Prod.fst h
    · right
      have hb := (broadcastTo_mem _ sid R2 (Msg.peer_joined sid) x m).mp h
      obtain ⟨hm, hx, s2, hs2, hsid2, hcont2⟩ := hb
      refine ⟨hm, hx, s2, ?_, hsid2, hcont2⟩
      simpa [step_join_sockets st sid R2 now hR2] using
        (show s2 ∈ (st.sockets.map (joinUpd sid R2)) by exact hs2)
  · intro now2 sender2 C hsender
    simp only [step, if_neg hR1]
    refine (broadcastTo_mem _ sender2 R1 (Msg.code_change C) sid
      (Msg.code_change C)).mpr ⟨rfl, Ne.symm hsender, joinUpd sid R2 s, ?_, ?_, hroom1⟩
    · exact List.mem_of_find?_eq_some hfind'
    · rw [joinUpd_sid]
      exact hsid

theorem C2_amended_witness :
    (∃ s', findSocket (step ⟨[], [⟨1, some "r1", ["r1"]⟩, ⟨2, none, []⟩]⟩
        (Event.join_room 1 "r2") 4).1 1 = some s' ∧
      s'.activeRoom = some "r2" ∧ s'.rooms.contains "r1" = true) ∧
    (1, Msg.code_change "x") ∈
      (step (step ⟨[], [⟨1, some "r1", ["r1"]⟩, ⟨2, none, []⟩]⟩
          (Event.join_room 1 "r2") 4).1
        (Event.code_change 2 "r1" (JsContent.str "x")) 5).2 := by
  have h := C2_amended ⟨[], [⟨1, some "r1", ["r1"]⟩, ⟨2, none, []⟩]⟩ 1
    ⟨1, some "r1", ["r1"]⟩ "r1" "r2" 4 (by decide) (by decide) (by decide) (by decide)
  exact ⟨h.1, h.2.2 5 2 "x" (by decide)⟩

/-- All document timestamps in the store are at most `t`. -/
def stampsLE (st : ServerState) (t : Nat) : Prop :=
  ∀ p ∈ st.documents, p.2.updatedAt ≤ t

/-- The clock is monotone along the trace: event times are non-decreasing
and bounded below by `t0`. -/
def timesMono : Nat → List (Event × Nat) → Prop
  | _, [] => True
  | t0, p :: rest => t0 ≤ p.2 ∧ timesMono p.2 rest

theorem stampsLE_mono {st : ServerState} {t t' : Nat} (h : t ≤ t')
    (hs : stampsLE st t) : stampsLE st t' :=
  fun p hp => le_trans (hs p hp) h

theorem stampsLE_find {st : ServerState} {t : Nat} {r : String} {d : DocumentState}
    (h : stampsLE st t) (hf : mapFind st.documents r = some d) : d.updatedAt ≤ t := by
  unfold mapFind at hf
  cases h2 : st.documents.find? (fun p => p.1 == r) with
  | none => simp [h2] at hf
  | some p =>
      have hmem := List.mem_of_find?_eq_some h2
      have hpd : p.2 = d := by simpa [h2] using hf
      exact hpd ▸ h p hmem

theorem mem_mapSet (m : List (String × DocumentState)) (k : String) (v : DocumentState)
    (p : String × DocumentState) (hp : p ∈ mapSet m k v) : p = (k, v) ∨ p ∈ m := by
  induction m with
  | nil => simpa [mapSet] using hp
  | cons q rest ih =>
      cases hb : (q.1 == k) with
      | true =>
          rw [mapSet, if_pos hb] at hp
          rcases List.mem_cons.mp hp with h | h
          · exact Or.inl h
          · exact Or.inr (List.mem_cons_of_mem q h)
      | false =>
          rw [mapSet, if_neg (by simp [hb])] at hp
          rcases List.mem_cons.mp hp with h | h
          · exact Or.inr (h ▸ List.mem_cons_self q rest)
          · rcases ih h with h' | h'
            · exact Or.inl h'
            · exact Or.inr (List.mem_cons_of_mem q h')

theorem stampsLE_mapSet {m : List (String × DocumentState)} {k : String}
    {v : DocumentState} {t : Nat} (hm : ∀ p ∈ m, p.2.updatedAt ≤ t)
    (hv : v.updatedAt ≤ t) : ∀ p ∈ mapSet m k v, p.2.updatedAt ≤ t := by
  intro p hp
  rcases mem_mapSet m k v p hp with h | h
  · rw [h]
    exact hv
  · exact hm p h

/-- Every step taken at time `now` keeps all stored timestamps at most `now`,
provided they already were (new or replaced entries are stamped `now`). -/
theorem step_stampsLE (st : ServerState) (ev : Event) (now : Nat)
    (h : stampsLE st now) : stampsLE (step st ev now).1 now := by
  cases ev with
  | connect sid => exact h
  | join_room sid rid =>
      by_cases hrid : rid = ""
      · simpa [step, hrid] using h
      · simp only [step, if_neg hrid]
        by_cases hs : (mapFind st.documents rid).isSome
        · simpa [hs] using h
        · intro p hp
          refine stampsLE_mapSet h ?_ p (by simpa [hs] using hp)
          exact le_refl now
  | code_change sid rid c =>
      cases c with
      | nonString => by_cases hrid : rid = "" <;> simpa [step, hrid] using h
      | str s =>
          by_cases hrid : rid = ""
          · simpa [step, hrid] using h
          · intro p hp
            refine stampsLE_mapSet h ?_ p (by simpa [step, hrid] using hp)
            exact le_refl now
  | cursor_update sid rid cur =>
      by_cases hrid : rid = "" <;> simpa [step, hrid] using h
  | disconnect sid => exact h

/-- One step never decreases a room's stored timestamp (at a time at or
after every stored timestamp). -/
theorem step_doc_mono (st : ServerState) (ev : Event) (now : Nat) (r : String)
    (d : DocumentState) (h : stampsLE st now) (hd : mapFind st.documents r = some d) :
    ∃ d', mapFind (step st ev now).1.documents r = some d' ∧
      d.updatedAt ≤ d'.updatedAt := by
  cases ev with
  | connect sid => exact ⟨d, by simpa [step] using hd, le_refl _⟩
  | join_room sid rid =>
      by_cases hrid : rid = ""
      · exact ⟨d, by simpa [step, hrid] using hd, le_refl _⟩
      · simp only [step, if_neg hrid]
        by_cases hrR : rid = r
        · subst hrR
          simp [hd]
        · by_cases hs : (mapFind st.documents rid).isSome
          · exact ⟨d, by simpa [hs] using hd, le_refl _⟩
          · exact ⟨d, by simpa [hs, mapFind_mapSet_ne _ _ _ _ (Ne.symm hrR)] using hd,
              le_refl _⟩
  | code_change sid rid c =>
      cases c with
      | nonString =>
          by_cases hrid : rid = "" <;>
            exact ⟨d, by simpa [step, hrid] using hd, le_refl _⟩
      | str s =>
          by_cases hrid : rid = ""
          · exact ⟨d, by simpa [step, hrid] using hd, le_refl _⟩
          · by_cases hrR : rid = r
            · subst hrR
              refine ⟨⟨s, now⟩, ?_, stampsLE_find h hd⟩
              simp [step, hrid, mapFind_mapSet_self]
            · exact ⟨d, by simpa [step, hrid,
                mapFind_mapSet_ne _ _ _ _ (Ne.symm hrR)] using hd, le_refl _⟩
  | cursor_update sid rid cur =>
      by_cases hrid : rid = "" <;> exact ⟨d, by simpa [step, hrid] using hd, le_refl _⟩
  | disconnect sid => exact ⟨d, by simpa [step] using hd, le_refl _⟩

theorem run_doc_mono : ∀ (tr : List (Event × Nat)) (t0 : Nat) (st : ServerState),
    timesMono t0 tr → stampsLE st t0 → ∀ r d, mapFind st.documents r = some d →
    ∃ d', mapFind (run st tr).documents r = some d' ∧
      d.updatedAt ≤ d'.updatedAt := by
  intro tr
  induction tr with
  | nil => exact fun t0 st _ _ r d hd => ⟨d, hd, le_refl _⟩
  | cons p rest ih =>
      intro t0 st htm hst r d hd
      obtain ⟨h01, hrest⟩ := htm
      have hst1 : stampsLE st p.2 := stampsLE_mono h01 hst
      obtain ⟨d1, hd1, hle1⟩ := step_doc_mono st p.1 p.2 r d hst1 hd
      obtain ⟨d', hd', hle2⟩ := ih p.2 _ hrest (step_stampsLE st p.1 p.2 hst1) r d1 hd1
      exact ⟨d', by simpa [run] using hd', le_trans hle1 hle2⟩

/-- C8: along any trace processed with a monotone clock (event times
non-decreasing and at least every timestamp already stored), a room's
`updatedAt` is non-decreasing: the final stored timestamp is at least the
initial one, since each accepted mutation stamps the current time. -/
theorem C8_theorem (st : ServerState) (tr : List (Event × Nat)) (t0 : Nat)
    (r : String) (d d' : DocumentState) (htm : timesMono t0 tr)
    (hst : stampsLE st t0) (hd : mapFind st.documents r = some d)
    (hd' : mapFind (run st tr).documents r = some d') :
    d.updatedAt ≤ d'.updatedAt := by
  obtain ⟨d'', hd'', hle⟩ := run_doc_mono tr t0 st htm hst r d hd
  have : d'' = d' := Option.some.inj (hd''.symm.trans hd')
  exact this ▸ hle

theorem C8_witness :
    mapFind (run ⟨[("demo", ⟨"", 1⟩)], []⟩
        [(Event.code_change 1 "demo" (JsContent.str "a"), 2),
         (Event.code_change 1 "demo" (JsContent.str "b"), 5)]).documents "demo" =
      some ⟨"b", 5⟩ ∧
    (DocumentState.mk "" 1).updatedAt ≤ (DocumentState.mk "b" 5).updatedAt := by
  refine ⟨by decide, ?_⟩
  exact C8_theorem ⟨[("demo", ⟨"", 1⟩)], []⟩
    [(Event.code_change 1 "demo" (JsContent.str "a"), 2),
     (Event.code_change 1 "demo" (JsContent.str "b"), 5)] 1 "demo" ⟨"", 1⟩ ⟨"b", 5⟩
    ⟨by decide, by decide, trivial⟩ (by unfold stampsLE; decide) (by decide) (by decide)

/-! ## Completion proxy (`POST /api/completions`)

The handler destructures `req.body ?? ` (empty object) with defaults
`code = ''`, `language = 'typescript'`, `cursor = 0`, builds a prompt from a
±2000-character window around the cursor, calls the provider, and then runs
`JSON.parse` on the provider's text, falling back — only when parsing
throws — to a synthetic single completion wrapping the raw text.

`JSON.parse` is a JavaScript builtin; `jsonParse` below models it on the
fragment sufficient for the claims: null, booleans, integer numbers (no
fractions/exponents), strings with the single-character escapes, arrays and
objects, with JSON whitespace.  Inputs outside the fragment are rejected. -/

/-- JSON values as produced by `JSON.parse` (integer-number fragment). -/
inductive Json where
  | null : Json
  | bool : Bool → Json
  | num : Int → Json
  | str : String → Json
  | arr : List Json → Json
  | obj : List (String × Json) → Json
deriving Repr

def lbraceChar : Char := Char.ofNat 123

def rbraceChar : Char := Char.ofNat 125

def isJsonWs (c : Char) : Bool :=
  c = ' ' || c = '\n' || c = '\t' || c = '\r'

def skipWs : List Char → List Char
  | [] => []
  | c :: cs => if isJsonWs c then skipWs cs else c :: cs

def escChar (c : Char) : Option Char :=
  if c = '"' then some '"'
  else if c = '\\' then some '\\'
  else if c = '/' then some '/'
  else if c = 'n' then some '\n'
  else if c = 't' then some '\t'
  else if c = 'r' then some '\r'
  else if c = 'b' then some (Char.ofNat 8)
  else if c = 'f' then some (Char.ofNat 12)
  else none

/-- Body of a JSON string literal, after the opening quote. -/
def parseStringAux : List Char → List Char → Option (String × List Char)
  | _, [] => none
  | acc, '"' :: cs => some (String.mk acc.reverse, cs)
  | _, '\\' :: [] => none
  | acc, '\\' :: e :: cs =>
      match escChar e with
      | some ch => parseStringAux (ch :: acc) cs
      | none => none
  | acc, c :: cs => parseStringAux (c :: acc) cs

def digitsToNat (ds : List Char) : Nat :=
  ds.foldl (fun a c => a * 10 + (c.toNat - 48)) 0

/-- JSON integer numbers; fractions and exponents are outside the modelled
fragment and rejected. -/
def parseNumber (l : List Char) : Option (Json × List Char) :=
  let neg : Bool :=
    match l with
    | '-' :: _ => true
    | _ => false
  let l1 :=
    match l with
    | '-' :: r => r
    | _ => l
  let ds := l1.takeWhile (fun c => c.isDigit)
  let rest := l1.dropWhile (fun c => c.isDigit)
  if ds.isEmpty then none
  else if ds.length > 1 && ds.head? == some '0' then none
  else
    let n : Int := Int.ofNat (digitsToNat ds)
    let j := Json.num (if neg then -n else n)
    match rest with
    | c :: _ => if c = '.' || c = 'e' || c = 'E' then none else some (j, rest)
    | [] => some (j, rest)

mutual

def parseValue : Nat → List Char → Option (Json × List Char)
  | 0, _ => none
  | fuel + 1, l =>
      match skipWs l with
      | [] => none
      | c :: cs =>
          if c = '"' then
            match parseStringAux [] cs with
            | some (s, rest) => some (Json.str s, rest)
            | none => none
          else if c = '[' then
            match skipWs cs with
            | c2 :: cs2 =>
                if c2 = ']' then some (Json.arr [], cs2)
                else
                  match parseArrayElems fuel (c2 :: cs2) with
                  | some (js, rest) => some (Json.arr js, rest)
                  | none => none
            | [] => none
          else if c = lbraceChar then
            match skipWs cs with
            | c2 :: cs2 =>
                if c2 = rbraceChar then some (Json.obj [], cs2)
                else
                  match parseObjMembers fuel (c2 :: cs2) with
                  | some (ms, rest) => some (Json.obj ms, rest)
                  | none => none
            | [] => none
          else if c = 'n' then
            match cs with
            | 'u' :: 'l' :: 'l' :: rest => some (Json.null, rest)
            | _ => none
          else if c = 't' then
            match cs with
            | 'r' :: 'u' :: 'e' :: rest => some (Json.bool true, rest)
            | _ => none
          else if c = 'f' then
            match cs with
            | 'a' :: 'l' :: 's' :: 'e' :: rest => some (Json.bool false, rest)
            | _ => none
          else parseNumber (c :: cs)

def parseArrayElems : Nat → List Char → Option (List Json × List Char)
  | 0, _ => none
  | fuel + 1, l =>
      match parseValue fuel l with
      | none => none
      | some (j, rest) =>
          match skipWs rest with
          | c :: cs =>
              if c = ',' then
                match parseArrayElems fuel cs with
                | some (js, rest2) => some (j :: js, rest2)
                | none => none
              else if c = ']' then some ([j], cs)
              else none
          | [] => none

def parseObjMembers : Nat → List Char → Option (List (String × Json) × List Char)
  | 0, _ => none
  | fuel + 1, l =>
      match skipWs l with
      | [] => none
      | c :: cs =>
          if c = '"' then
            match parseStringAux [] cs with
            | none => none
            | some (k, rest) =>
                match skipWs rest with
                | ':' :: rest2 =>
                    match parseValue fuel rest2 with
                    | none => none
                    | some (v, rest3) =>
                        match skipWs rest3 with
                        | c2 :: cs2 =>
                            if c2 = ',' then
                              match parseObjMembers fuel cs2 with
                              | some (ms, rest4) => some ((k, v) :: ms, rest4)
                              | none => none
                            else if c2 = rbraceChar then some ([(k, v)], cs2)
                            else none
                        | [] => none
                | _ => none
          else none

end

/-- Model of `JSON.parse` on the fragment above: parse one value and require
only whitespace to remain. -/
def jsonParse (s : String) : Option Json :=
  match parseValue (s.length + 1) s.data with
  | some (j, rest) => if (skipWs rest).isEmpty then some j else none
  | none => none

/-- The fallback object built in the `catch` branch:
an object with a `completions` array holding one completion whose
`insertText` is the raw provider text and whose `displayText` is the fixed
label `Gemini suggestion`. -/
def syntheticCompletion (textResponse : String) : Json :=
  Json.obj [("completions", Json.arr [Json.obj
    [("insertText", Json.str textResponse),
     ("displayText", Json.str "Gemini suggestion")]])]

/-- `completionsPayload`: `JSON.parse(textResponse)` with the catch-wrapped
fallback; this value is sent as the response body. -/
def completionsPayloadOf (textResponse : String) : Json :=
  match jsonParse textResponse with
  | some j => j
  | none => syntheticCompletion textResponse

def isStringField (fields : List (String × Json)) (k : String) : Bool :=
  match fields.find? (fun p => p.1 == k) with
  | some (_, Json.str _) => true
  | _ => false

def isCompletionItem : Json → Bool
  | Json.obj fields => isStringField fields "insertText" && isStringField fields "displayText"
  | _ => false

/-- The response shape demanded by the prompt: an object whose `completions`
field is an array of items each holding string `insertText`/`displayText`. -/
def isShapedCompletions : Json → Bool
  | Json.obj fields =>
      (match fields.find? (fun p => p.1 == "completions") with
       | some (_, Json.arr items) => items.all isCompletionItem
       | _ => false)
  | _ => false

/-- C5 (counterexample): the provider text `"42"` is valid JSON but not of
the completions shape; the endpoint nevertheless returns the parsed value
`42` as-is — the code runs `JSON.parse` with no shape validation — rather
than the synthetic single completion the claim requires for any text that
is not valid JSON of the shape. -/
theorem C5_counterexample :
    jsonParse "42" = some (Json.num 42) ∧
    isShapedCompletions (Json.num 42) = false ∧
    completionsPayloadOf "42" = Json.num 42 ∧
    completionsPayloadOf "42" ≠ syntheticCompletion "42" := by
  refine ⟨rfl, rfl, rfl, ?_⟩
  intro h
  exact Json.noConfusion (show Json.num 42 = Json.obj _ from h)

/-- C5 (amended): the endpoint returns `JSON.parse(textResponse)` whenever
parsing succeeds — with no validation of the parsed value's shape — and
returns the synthetic response with exactly one completion whose
`insertText` is the raw text verbatim and whose `displayText` is the fixed
label `Gemini suggestion` exactly when parsing fails. -/
theorem C5_amended (T : String) :
    (∀ j, jsonParse T = some j → completionsPayloadOf T = j) ∧
    (jsonParse T = none → completionsPayloadOf T = syntheticCompletion T) := by
  constructor
  · intro j hj
    simp [completionsPayloadOf, hj]
  · intro hj
    simp [completionsPayloadOf, hj]

theorem C5_amended_witness :
    completionsPayloadOf "Hello" = syntheticCompletion "Hello" ∧
    completionsPayloadOf "[1]" = Json.arr [Json.num 1] :=
  ⟨(C5_amended "Hello").2 rfl, (C5_amended "[1]").1 (Json.arr [Json.num 1]) rfl⟩

/-- The completions request body; every field is optional
(`req.body` itself may be absent: `req.body ?? ` empty object). -/
structure CompletionsBody where
  code : Option String
  language : Option String
  cursor : Option Int
  instructions : Option String
deriving Repr, DecidableEq

/-- JavaScript `String.prototype.slice` with integer arguments: negative
indices count from the end, then both are clamped to `[0, length]`. -/
def jsSlice (s : String) (a b : Int) : String :=
  let len : Int := Int.ofNat s.length
  let norm : Int → Nat := fun i => if i < 0 then (max (len + i) 0).toNat else (min i len).toNat
  String.mk (((s.data).drop (norm a)).take (norm b - norm a))

/-- The `userPrompt` array of the handler: language and cursor lines, the
optional instructions line (present iff `instructions` is truthy), and the
±2000-character code window; `.filter(Boolean)` drops falsy entries, hence
also any empty-string line. -/
def userPromptLines (code language : String) (cursor : Int)
    (instructions : Option String) : List String :=
  ([ "Language: " ++ language,
     "Cursor offset: " ++ toString cursor ]
   ++ (match instructions with
       | some s => if s = "" then [] else ["Additional instructions: " ++ s]
       | none => [])
   ++ [ "---- CURRENT FILE START ----",
        jsSlice code (max 0 (cursor - 2000)) cursor,
        "<CURSOR>",
        jsSlice code cursor (cursor + 2000),
        "---- CURRENT FILE END ----" ]).filter (fun l => l != "")

def userPrompt (code language : String) (cursor : Int)
    (instructions : Option String) : String :=
  String.intercalate "\n" (userPromptLines code language cursor instructions)

def effBody (b : Option CompletionsBody) : CompletionsBody :=
  b.getD ⟨none, none, none, none⟩

/-- The handler up to the provider call: the credential check
(`if (!GEMINI_API_KEY)` → fixed 500 configuration error), then the prompt
built from the destructured body with defaults `code = ''`,
`language = 'typescript'`, `cursor = 0`.  No other validation is performed
on the request. -/
def completionsStage (apiKey : Option String) (b : Option CompletionsBody) :
    Except String String :=
  if apiKey.getD "" = "" then Except.error "GEMINI_API_KEY is not configured"
  else
    Except.ok (userPrompt ((effBody b).code.getD "")
      ((effBody b).language.getD "typescript")
      ((effBody b).cursor.getD 0) (effBody b).instructions)

/-- C10: with a configured credential, a completions request missing
`code`, `language`, or `cursor` — or with no body at all — is not rejected:
the missing fields default to `code = ""`, `language = "typescript"`,
`cursor = 0`, and processing (the outbound prompt) is exactly what it would
be had those values been supplied explicitly. -/
theorem C10_theorem (k : String) (b : CompletionsBody) (hk : k ≠ "") :
    completionsStage (some k) none =
      completionsStage (some k) (some ⟨some "", some "typescript", some 0, none⟩) ∧
    completionsStage (some k) (some { b with code := none }) =
      completionsStage (some k) (some { b with code := some "" }) ∧
    completionsStage (some k) (some { b with language := none }) =
      completionsStage (some k) (some { b with language := some "typescript" }) ∧
    completionsStage (some k) (some { b with cursor := none }) =
      completionsStage (some k) (some { b with cursor := some 0 }) ∧
    (∃ p, completionsStage (some k) (some b) = Except.ok p) := by
  refine ⟨?_, ?_, ?_, ?_, ?_⟩ <;> simp [completionsStage, effBody, hk]

theorem C10_witness :
    completionsStage (some "key") none =
      completionsStage (some "key") (some ⟨some "", some "typescript", some 0, none⟩) ∧
    (∃ p, completionsStage (some "key") (some ⟨none, none, none, none⟩) = Except.ok p) := by
  have h := C10_theorem "key" ⟨none, none, none, none⟩ (by decide)
  exact ⟨h.1, h.2.2.2.2⟩

end RealtimeEditor
